import Mathlib

/-!
Verification of the Iris protocol parsers (DNS wire-format codec and HTTP/1.x
framing policy) against their natural-language specification.

Buffers are modelled as `List Nat`, one entry per byte.  All functions below
are byte-level shallow embeddings of the Rust sources:
  - `parseNameAux`/`parseName`  ↦ `parse_name`              (dns.rs)
  - `serializeName`             ↦ `serialize_name`          (dns.rs)
  - `buildQueryBytes`           ↦ `build_query_bytes`       (dns.rs)
  - `formatRdata`/`hexBytes`    ↦ `format_rdata`/`hex`      (dns.rs)
  - `parseRr`/`parseRrSection`  ↦ `parse_rr`/`parse_rr_section` (dns.rs)
  - `parseDns`                  ↦ `parse_dns`               (dns.rs)
  - `parseContentLength`        ↦ `parse_content_length`    (http.rs)
  - `isChunked`                 ↦ `is_chunked`              (http.rs)
  - `requestFraming`            ↦ the framing computation shared by
                                  `iris_http_parse_request` and
                                  `iris_http_parse_response` after the header
                                  lexer (the external httparse crate) returns
                                  Complete with a header list (http.rs)
Rust `Option`/`Result` failures are `none`; strings are their UTF-8 bytes.
-/

namespace Iris

/-- Big-endian 16-bit read, `u16::from_be_bytes([a, b])` for bytes `a`, `b`. -/
def be16 (a b : Nat) : Nat := 256 * a + b

/-- Big-endian 32-bit read, `u32::from_be_bytes([a, b, c, d])`. -/
def be32 (a b c d : Nat) : Nat := ((256 * a + b) * 256 + c) * 256 + d

/-- Big-endian 16-bit write, `u16::to_be_bytes` of a 16-bit value. -/
def be16enc (n : Nat) : List Nat := [n / 256 % 256, n % 256]

/-- Subslice `data[i..i+n]`, as used after an explicit bounds check. -/
def sliceB (data : List Nat) (i n : Nat) : List Nat := (data.drop i).take n

/-- Join a list of byte strings with a separator, `Vec::join`. -/
def joinSep (sep : List Nat) : List (List Nat) → List Nat
  | [] => []
  | [l] => l
  | l :: l2 :: ls => l ++ sep ++ joinSep sep (l2 :: ls)

/-- Render decoded labels: empty label list shows as "." (byte 46), otherwise
the labels joined with ".", exactly `if labels.is_empty { "." } else
{ labels.join(".") }` in `parse_name`. -/
def renderLabels (labels : List (List Nat)) : List Nat :=
  if labels.isEmpty then [46] else joinSep [46] labels

/-- UTF-8 validity of a byte sequence, the check performed by
`std::str::from_utf8` (rejecting overlong forms, surrogates and values above
U+10FFFF). -/
def validUtf8 : List Nat → Bool
  | [] => true
  | b :: rest =>
    if b < 128 then validUtf8 rest
    else if 194 ≤ b ∧ b ≤ 223 then
      match rest with
      | c1 :: r => if 128 ≤ c1 ∧ c1 ≤ 191 then validUtf8 r else false
      | [] => false
    else if b = 224 then
      match rest with
      | c1 :: c2 :: r =>
        if (160 ≤ c1 ∧ c1 ≤ 191) ∧ (128 ≤ c2 ∧ c2 ≤ 191) then validUtf8 r else false
      | _ => false
    else if 225 ≤ b ∧ b ≤ 236 then
      match rest with
      | c1 :: c2 :: r =>
        if (128 ≤ c1 ∧ c1 ≤ 191) ∧ (128 ≤ c2 ∧ c2 ≤ 191) then validUtf8 r else false
      | _ => false
    else if b = 237 then
      match rest with
      | c1 :: c2 :: r =>
        if (128 ≤ c1 ∧ c1 ≤ 159) ∧ (128 ≤ c2 ∧ c2 ≤ 191) then validUtf8 r else false
      | _ => false
    else if 238 ≤ b ∧ b ≤ 239 then
      match rest with
      | c1 :: c2 :: r =>
        if (128 ≤ c1 ∧ c1 ≤ 191) ∧ (128 ≤ c2 ∧ c2 ≤ 191) then validUtf8 r else false
      | _ => false
    else if b = 240 then
      match rest with
      | c1 :: c2 :: c3 :: r =>
        if (144 ≤ c1 ∧ c1 ≤ 191) ∧ (128 ≤ c2 ∧ c2 ≤ 191) ∧ (128 ≤ c3 ∧ c3 ≤ 191) then
          validUtf8 r
        else false
      | _ => false
    else if 241 ≤ b ∧ b ≤ 243 then
      match rest with
      | c1 :: c2 :: c3 :: r =>
        if (128 ≤ c1 ∧ c1 ≤ 191) ∧ (128 ≤ c2 ∧ c2 ≤ 191) ∧ (128 ≤ c3 ∧ c3 ≤ 191) then
          validUtf8 r
        else false
      | _ => false
    else if b = 244 then
      match rest with
      | c1 :: c2 :: c3 :: r =>
        if (128 ≤ c1 ∧ c1 ≤ 143) ∧ (128 ≤ c2 ∧ c2 ≤ 191) ∧ (128 ≤ c3 ∧ c3 ≤ 191) then
          validUtf8 r
        else false
      | _ => false
    else false

/-- Loop body of `parse_name` in dns.rs.  State: current read position `pos`,
labels decoded so far (in reverse push order), the caller-visible end offset
`endPos`, whether a compression pointer was already followed (`jumped`), and
the pointer-jump count `jumps`.  Each branch mirrors the Rust loop:
out-of-bounds read → `none`; zero length byte terminates; a byte with the top
two bits set is a 2-byte pointer (at most 10 jumps, the 11th fails); a length
byte over 63 fails; otherwise a label of that many bytes is read and must be
valid UTF-8. -/
def parseNameAux (data : List Nat) (pos : Nat) (labels : List (List Nat)) (endPos : Nat)
    (jumped : Bool) (jumps : Nat) : Option (List Nat × Nat) :=
  if hpos : data.length ≤ pos then none
  else
    if data.getD pos 0 = 0 then
      some (renderLabels labels.reverse, if jumped then endPos else pos + 1)
    else if Nat.land (data.getD pos 0) 192 = 192 then
      if data.length ≤ pos + 1 then none
      else if hj : 10 < jumps + 1 then none
      else
        parseNameAux data
          (Nat.lor (Nat.shiftLeft (Nat.land (data.getD pos 0) 63) 8) (data.getD (pos + 1) 0))
          labels (if jumped then endPos else pos + 2) true (jumps + 1)
    else if 63 < data.getD pos 0 then none
    else if data.length < pos + 1 + data.getD pos 0 then none
    else if validUtf8 (sliceB data (pos + 1) (data.getD pos 0)) then
      parseNameAux data (pos + 1 + data.getD pos 0)
        (sliceB data (pos + 1) (data.getD pos 0) :: labels) endPos jumped jumps
    else none
termination_by (11 - jumps) * (data.length + 1) + (data.length - pos)
decreasing_by
  · have h2 : 11 - jumps = (11 - (jumps + 1)) + 1 := by omega
    rw [h2, Nat.succ_mul]
    generalize (11 - (jumps + 1)) * (data.length + 1) = A
    omega
  · generalize (11 - jumps) * (data.length + 1) = A
    omega

/-- `parse_name(data, pos)` from dns.rs: decode a DNS name, returning the
name's display bytes and the offset just past the first label/pointer field. -/
def parseName (data : List Nat) (pos : Nat) : Option (List Nat × Nat) :=
  parseNameAux data pos [] 0 false 0

/-- Split a byte string on the '.' byte (46), `str::split('.')` ('.' is
ASCII, so splitting UTF-8 bytes on byte 46 agrees with splitting chars). -/
def splitOnDot : List Nat → List (List Nat)
  | [] => [[]]
  | b :: bs =>
    if b = 46 then [] :: splitOnDot bs
    else
      match splitOnDot bs with
      | h :: t => (b :: h) :: t
      | [] => [[b]]

/-- One encoded label of `serialize_name`: length byte (capped at 63) followed
by the label bytes truncated to 63. -/
def encLabel (l : List Nat) : List Nat := min l.length 63 :: l.take 63

/-- `serialize_name(name)` from dns.rs: split on '.', drop empty components,
emit length-prefixed labels, terminate with a zero byte. -/
def serializeName (s : List Nat) : List Nat :=
  (((splitOnDot s).filter fun l => !l.isEmpty).flatMap encLabel) ++ [0]

/-- `build_query_bytes(domain, rtype, id, rd)` from dns.rs. -/
def buildQueryBytes (domain : List Nat) (rtype id : Nat) (rd : Bool) : List Nat :=
  be16enc id ++ be16enc (if rd then 256 else 0) ++ be16enc 1 ++ [0, 0, 0, 0, 0, 0]
    ++ serializeName domain ++ be16enc rtype ++ be16enc 1

/-- Decimal rendering of a number, ASCII bytes of `format!("{}", n)`. -/
def decBytes (n : Nat) : List Nat := (Nat.toDigits 10 n).map Char.toNat

/-- Unpadded lowercase hex rendering, ASCII bytes of `format!("{:x}", n)`. -/
def hexNat (n : Nat) : List Nat := (Nat.toDigits 16 n).map Char.toNat

/-- Two-digit-padded lowercase hex, ASCII bytes of `format!("{:02x}", b)`. -/
def hexByte (b : Nat) : List Nat := if b < 16 then 48 :: hexNat b else hexNat b

/-- `hex(data)` from dns.rs: lowercase hex dump of a byte string. -/
def hexBytes (rd : List Nat) : List Nat := (rd.map hexByte).flatten

/-- ASCII bytes of the fixed prefix "AliasMode " used for SVCB priority 0. -/
def aliasModeBytes : List Nat := [65, 108, 105, 97, 115, 77, 111, 100, 101, 32]

/-- TXT rendering loop of `format_rdata`: walk length-prefixed character
strings, stop at a truncated chunk, keep only valid-UTF-8 chunks. -/
def txtChunksAux (rd : List Nat) (p : Nat) : List (List Nat) :=
  if h : p < rd.length then
    if rd.length < p + 1 + rd.getD p 0 then []
    else
      (if validUtf8 (sliceB rd (p + 1) (rd.getD p 0)) then [sliceB rd (p + 1) (rd.getD p 0)]
       else [])
        ++ txtChunksAux rd (p + 1 + rd.getD p 0)
  else []
termination_by rd.length - p

/-- `format_rdata(rtype, rd, msg, start)` from dns.rs: render an RDATA payload
for display.  Match arms in source order: A(1), AAAA(28), CNAME/NS/PTR(2/5/12),
MX(15), TXT(16), SRV(33), SVCB/HTTPS(64/65), everything else a hex dump. -/
def formatRdata (rtype : Nat) (rd msg : List Nat) (start : Nat) : List Nat :=
  if rtype = 1 ∧ rd.length = 4 then
    decBytes (rd.getD 0 0) ++ 46 :: decBytes (rd.getD 1 0) ++ 46 :: decBytes (rd.getD 2 0)
      ++ 46 :: decBytes (rd.getD 3 0)
  else if rtype = 28 ∧ rd.length = 16 then
    joinSep [58]
      ((List.range 8).map fun i => hexNat (be16 (rd.getD (2 * i) 0) (rd.getD (2 * i + 1) 0)))
  else if rtype = 2 ∨ rtype = 5 ∨ rtype = 12 then
    match parseName msg start with
    | some (n, _) => n
    | none => hexBytes rd
  else if rtype = 15 ∧ 3 ≤ rd.length then
    decBytes (be16 (rd.getD 0 0) (rd.getD 1 0))
      ++ 32 :: ((parseName msg (start + 2)).map Prod.fst).getD []
  else if rtype = 16 then
    (txtChunksAux rd 0).flatten
  else if rtype = 33 ∧ 7 ≤ rd.length then
    decBytes (be16 (rd.getD 0 0) (rd.getD 1 0))
      ++ 32 :: decBytes (be16 (rd.getD 2 0) (rd.getD 3 0))
      ++ 32 :: decBytes (be16 (rd.getD 4 0) (rd.getD 5 0))
      ++ 32 :: ((parseName msg (start + 6)).map Prod.fst).getD []
  else if (rtype = 64 ∨ rtype = 65) ∧ 3 ≤ rd.length then
    if be16 (rd.getD 0 0) (rd.getD 1 0) = 0 then
      aliasModeBytes ++ ((parseName msg (start + 2)).map Prod.fst).getD []
    else
      decBytes (be16 (rd.getD 0 0) (rd.getD 1 0))
        ++ 32 :: ((parseName msg (start + 2)).map Prod.fst).getD []
  else hexBytes rd

/-- Spec-side predicate: the (type, rdata-length) pairs that fall through every
typed arm of `format_rdata`, i.e. an unknown record type or a known type whose
rdata has the wrong byte length. -/
def hexFallback (rtype rdlen : Nat) : Bool :=
  !(rtype == 1 && rdlen == 4) && !(rtype == 28 && rdlen == 16)
    && !(rtype == 2 || rtype == 5 || rtype == 12) && !(rtype == 15 && 3 ≤ rdlen)
    && !(rtype == 16) && !(rtype == 33 && 7 ≤ rdlen)
    && !((rtype == 64 || rtype == 65) && 3 ≤ rdlen)

/-- A parsed DNS question, `DnsQ` in dns.rs. -/
structure DnsQ where
  name : List Nat
  qtype : Nat
  qclass : Nat
deriving DecidableEq, Repr

/-- A parsed DNS resource record, `DnsRR` in dns.rs. -/
structure DnsRR where
  name : List Nat
  rtype : Nat
  rclass : Nat
  ttl : Nat
  rdata : List Nat
  display : List Nat
deriving DecidableEq, Repr

/-- The structured result of `parse_dns` in dns.rs (the tuple it returns,
with the flags word already split into its named fields). -/
structure DnsMessage where
  id : Nat
  isResponse : Bool
  opcode : Nat
  isAuthoritative : Bool
  isTruncated : Bool
  recursionDesired : Bool
  recursionAvailable : Bool
  responseCode : Nat
  questions : List DnsQ
  answers : List DnsRR
  authority : List DnsRR
  additional : List DnsRR
deriving DecidableEq, Repr

/-- `parse_rr(data, offset)` from dns.rs: name, 2-byte type, 2-byte class,
4-byte TTL, 2-byte rdata length, rdata bytes (bounds-checked). -/
def parseRr (data : List Nat) (offset : Nat) : Option (DnsRR × Nat) :=
  match parseName data offset with
  | none => none
  | some (name, pos) =>
    if data.length < pos + 10 then none
    else
      if data.length < pos + 10 + be16 (data.getD (pos + 8) 0) (data.getD (pos + 9) 0) then none
      else
        some
          (⟨name, be16 (data.getD pos 0) (data.getD (pos + 1) 0),
            be16 (data.getD (pos + 2) 0) (data.getD (pos + 3) 0),
            be32 (data.getD (pos + 4) 0) (data.getD (pos + 5) 0) (data.getD (pos + 6) 0)
              (data.getD (pos + 7) 0),
            sliceB data (pos + 10) (be16 (data.getD (pos + 8) 0) (data.getD (pos + 9) 0)),
            formatRdata (be16 (data.getD pos 0) (data.getD (pos + 1) 0))
              (sliceB data (pos + 10) (be16 (data.getD (pos + 8) 0) (data.getD (pos + 9) 0)))
              data (pos + 10)⟩,
          pos + 10 + be16 (data.getD (pos + 8) 0) (data.getD (pos + 9) 0))

/-- `parse_rr_section(data, off, count)` from dns.rs: read up to `count`
records, stopping (without error) at the first record that fails to decode.
Returns the records and the final offset (the Rust `&mut usize` cursor). -/
def parseRrSection (data : List Nat) : Nat → Nat → List DnsRR × Nat
  | off, 0 => ([], off)
  | off, count + 1 =>
    match parseRr data off with
    | some (rr, off1) =>
      ((parseRrSection data off1 count).1.cons rr, (parseRrSection data off1 count).2)
    | none => ([], off)

/-- The question-section loop of `parse_dns`: exactly `count` questions, any
failure fails the whole parse (Rust `?`). -/
def parseQuestions (data : List Nat) : Nat → Nat → Option (List DnsQ × Nat)
  | off, 0 => some ([], off)
  | off, count + 1 =>
    match parseName data off with
    | none => none
    | some (name, off1) =>
      if data.length < off1 + 4 then none
      else
        match parseQuestions data (off1 + 4) count with
        | none => none
        | some (qs, off2) =>
          some (⟨name, be16 (data.getD off1 0) (data.getD (off1 + 1) 0),
            be16 (data.getD (off1 + 2) 0) (data.getD (off1 + 3) 0)⟩ :: qs, off2)

/-- The answer-section loop of `parse_dns`: exactly `count` records, any
failure fails the whole parse (Rust `?` on `parse_rr`). -/
def parseAnswers (data : List Nat) : Nat → Nat → Option (List DnsRR × Nat)
  | off, 0 => some ([], off)
  | off, count + 1 =>
    match parseRr data off with
    | none => none
    | some (rr, off1) =>
      match parseAnswers data off1 count with
      | none => none
      | some (rrs, off2) => some (rr :: rrs, off2)

/-- `parse_dns(data)` from dns.rs: reject buffers under 12 bytes and any
section count over 256; parse exactly `qdcount` questions and `ancount`
answers (failures fail the message), then authority and additional with the
truncating reader; split the flags word by fixed bit positions. -/
def parseDns (data : List Nat) : Option DnsMessage :=
  if data.length < 12 then none
  else
    if 256 < be16 (data.getD 4 0) (data.getD 5 0) ∨ 256 < be16 (data.getD 6 0) (data.getD 7 0)
        ∨ 256 < be16 (data.getD 8 0) (data.getD 9 0)
        ∨ 256 < be16 (data.getD 10 0) (data.getD 11 0) then none
    else
      match parseQuestions data 12 (be16 (data.getD 4 0) (data.getD 5 0)) with
      | none => none
      | some (qs, off1) =>
        match parseAnswers data off1 (be16 (data.getD 6 0) (data.getD 7 0)) with
        | none => none
        | some (ans, off2) =>
          some
            ⟨be16 (data.getD 0 0) (data.getD 1 0),
              Nat.land (be16 (data.getD 2 0) (data.getD 3 0)) 32768 != 0,
              Nat.land (Nat.shiftRight (be16 (data.getD 2 0) (data.getD 3 0)) 11) 15,
              Nat.land (be16 (data.getD 2 0) (data.getD 3 0)) 1024 != 0,
              Nat.land (be16 (data.getD 2 0) (data.getD 3 0)) 512 != 0,
              Nat.land (be16 (data.getD 2 0) (data.getD 3 0)) 256 != 0,
              Nat.land (be16 (data.getD 2 0) (data.getD 3 0)) 128 != 0,
              Nat.land (be16 (data.getD 2 0) (data.getD 3 0)) 15,
              qs, ans,
              (parseRrSection data off2 (be16 (data.getD 8 0) (data.getD 9 0))).1,
              (parseRrSection data
                (parseRrSection data off2 (be16 (data.getD 8 0) (data.getD 9 0))).2
                (be16 (data.getD 10 0) (data.getD 11 0))).1⟩

/-- ASCII lowercasing of one byte, as in `eq_ignore_ascii_case`. -/
def toLowerB (b : Nat) : Nat := if 65 ≤ b ∧ b ≤ 90 then b + 32 else b

/-- `eq_ignore_ascii_case` on byte strings. -/
def eqIgnoreAsciiCase : List Nat → List Nat → Bool
  | [], [] => true
  | a :: ta, b :: tb => toLowerB a == toLowerB b && eqIgnoreAsciiCase ta tb
  | _, _ => false

/-- ASCII bytes of "content-length". -/
def clNameBytes : List Nat := [99, 111, 110, 116, 101, 110, 116, 45, 108, 101, 110, 103, 116, 104]

/-- ASCII bytes of "transfer-encoding". -/
def teNameBytes : List Nat :=
  [116, 114, 97, 110, 115, 102, 101, 114, 45, 101, 110, 99, 111, 100, 105, 110, 103]

/-- ASCII bytes of "chunked". -/
def chunkedBytes : List Nat := [99, 104, 117, 110, 107, 101, 100]

/-- `value.windows(7).any(|w| w.eq_ignore_ascii_case(b"chunked"))` from
`is_chunked` in http.rs. -/
def hasChunkedToken (v : List Nat) : Bool :=
  (List.range (v.length - 6)).any fun i => eqIgnoreAsciiCase (sliceB v i 7) chunkedBytes

/-- `is_chunked(headers)` from http.rs: some header named "transfer-encoding"
(case-insensitively) whose value contains the token "chunked". -/
def isChunked (headers : List (List Nat × List Nat)) : Bool :=
  headers.any fun h => eqIgnoreAsciiCase h.1 teNameBytes && hasChunkedToken h.2

/-- ASCII whitespace bytes removed by `str::trim` (header values are ASCII in
all relevant cases; the Unicode-only whitespace code points are not modelled). -/
def isWsB (b : Nat) : Bool := b == 9 || b == 10 || b == 11 || b == 12 || b == 13 || b == 32

/-- `str::trim` at the byte level: strip leading and trailing whitespace. -/
def asciiTrim (v : List Nat) : List Nat :=
  ((v.dropWhile isWsB).reverse.dropWhile isWsB).reverse

/-- Digit-accumulation of `i64::from_str`: all bytes must be ASCII digits. -/
def decDigitsAux : List Nat → Nat → Option Nat
  | [], acc => some acc
  | b :: bs, acc => if 48 ≤ b ∧ b ≤ 57 then decDigitsAux bs (10 * acc + (b - 48)) else none

/-- `str::parse::<i64>()`: optional sign, at least one digit, nothing else,
error outside the i64 range. -/
def parseI64 : List Nat → Option Int
  | [] => none
  | 43 :: rest =>
    match rest, decDigitsAux rest 0 with
    | _ :: _, some n => if n ≤ 9223372036854775807 then some (n : Int) else none
    | _, _ => none
  | 45 :: rest =>
    match rest, decDigitsAux rest 0 with
    | _ :: _, some n => if n ≤ 9223372036854775808 then some (-(n : Int)) else none
    | _, _ => none
  | b :: rest =>
    match decDigitsAux (b :: rest) 0 with
    | some n => if n ≤ 9223372036854775807 then some (n : Int) else none
    | none => none

/-- The value a header contributes in `parse_content_length`: UTF-8 check,
trim, parse as i64 (`if let Ok(s) = from_utf8 { if let Ok(v) = s.trim().parse() }`). -/
def clValueOf (v : List Nat) : Option Int :=
  if validUtf8 v then parseI64 (asciiTrim v) else none

/-- One header's contribution to the Content-Length scan: `none` unless the
name is "content-length" (case-insensitively) and the value parses. -/
def clHeaderVal (h : List Nat × List Nat) : Option Int :=
  if eqIgnoreAsciiCase h.1 clNameBytes then clValueOf h.2 else none

/-- The header loop of `parse_content_length`: collect parsed values in order,
failing outright when a value exceeds 100 MiB, and deduplicating identical
values (`if !values.contains(&v) { values.push(v) }`). -/
def collectCL : List (List Nat × List Nat) → List Int → Option (List Int)
  | [], acc => some acc
  | h :: t, acc =>
    match clHeaderVal h with
    | some v =>
      if 104857600 < v then none
      else collectCL t (if acc.contains v then acc else acc ++ [v])
    | none => collectCL t acc

/-- `parse_content_length(headers)` from http.rs: `none` is the Err (conflict)
case, `some none` absence, `some (some v)` the surviving value. -/
def parseContentLength (headers : List (List Nat × List Nat)) : Option (Option Int) :=
  match collectCL headers [] with
  | none => none
  | some vs => if 1 < vs.length then none else some vs.head?

/-- The framing computation both `iris_http_parse_request` and
`iris_http_parse_response` run once the header lexer returns Complete:
`let chunked = is_chunked(headers); let cl = if chunked { -1 } else { match
parse_content_length(headers) { ... Err => return -2 } }`.  Result `none` is
the -2 return; `some (cl, chunked)` the fields of the success struct. -/
def requestFraming (headers : List (List Nat × List Nat)) : Option (Int × Bool) :=
  if isChunked headers then some (-1, true)
  else
    match parseContentLength headers with
    | some (some v) => some (v, false)
    | some none => some (-1, false)
    | none => none

/-- The status code the parse entry points return once the lexer reports
Complete: 0 on success, -2 on a Content-Length conflict. -/
def requestParseCode (headers : List (List Nat × List Nat)) : Int :=
  match requestFraming headers with
  | none => -2
  | some _ => 0

/-- The body-presence rule of `iris_http_parse_response`:
`status >= 200 && status != 204 && status != 304` (a function of the status
code alone; the declared Content-Length is not consulted). -/
def hasBodyOf (status : Nat) : Bool :=
  decide (200 ≤ status) && status != 204 && status != 304

/-! ## Step lemmas for the name-decoder loop -/

theorem pn_oob (data : List Nat) (pos : Nat) (l : List (List Nat)) (e : Nat) (b : Bool)
    (j : Nat) (h : data.length ≤ pos) : parseNameAux data pos l e b j = none := by
  conv_lhs => unfold parseNameAux
  rw [dif_pos h]

theorem pn_zero (data : List Nat) (pos : Nat) (l : List (List Nat)) (e : Nat) (b : Bool)
    (j : Nat) (h : ¬ data.length ≤ pos) (h0 : data.getD pos 0 = 0) :
    parseNameAux data pos l e b j = some (renderLabels l.reverse, if b then e else pos + 1) := by
  conv_lhs => unfold parseNameAux
  rw [dif_neg h, if_pos h0]

theorem pn_ptr (data : List Nat) (pos : Nat) (l : List (List Nat)) (e : Nat) (b : Bool)
    (j : Nat) (h : ¬ data.length ≤ pos) (h0 : ¬ data.getD pos 0 = 0)
    (hp : Nat.land (data.getD pos 0) 192 = 192) (h1 : ¬ data.length ≤ pos + 1)
    (hj : ¬ 10 < j + 1) :
    parseNameAux data pos l e b j
      = parseNameAux data
          (Nat.lor (Nat.shiftLeft (Nat.land (data.getD pos 0) 63) 8) (data.getD (pos + 1) 0))
          l (if b then e else pos + 2) true (j + 1) := by
  conv_lhs => unfold parseNameAux
  rw [dif_neg h, if_neg h0, if_pos hp, if_neg h1, dif_neg hj]

theorem pn_ptr_over (data : List Nat) (pos : Nat) (l : List (List Nat)) (e : Nat) (b : Bool)
    (j : Nat) (h : ¬ data.length ≤ pos) (h0 : ¬ data.getD pos 0 = 0)
    (hp : Nat.land (data.getD pos 0) 192 = 192) (h1 : ¬ data.length ≤ pos + 1)
    (hj : 10 < j + 1) : parseNameAux data pos l e b j = none := by
  conv_lhs => unfold parseNameAux
  rw [dif_neg h, if_neg h0, if_pos hp, if_neg h1, dif_pos hj]

theorem pn_label (data : List Nat) (pos : Nat) (l : List (List Nat)) (e : Nat) (b : Bool)
    (j : Nat) (h : ¬ data.length ≤ pos) (h0 : ¬ data.getD pos 0 = 0)
    (hp : ¬ Nat.land (data.getD pos 0) 192 = 192) (h63 : ¬ 63 < data.getD pos 0)
    (hlen : ¬ data.length < pos + 1 + data.getD pos 0)
    (hu : validUtf8 (sliceB data (pos + 1) (data.getD pos 0)) = true) :
    parseNameAux data pos l e b j
      = parseNameAux data (pos + 1 + data.getD pos 0)
          (sliceB data (pos + 1) (data.getD pos 0) :: l) e b j := by
  conv_lhs => unfold parseNameAux
  rw [dif_neg h, if_neg h0, if_neg hp, if_neg h63, if_neg hlen, if_pos hu]

/-- A buffer holding a single self-referential compression pointer makes the
decoder loop on jumps alone; it fails after the jump budget is exhausted,
whatever the starting jump count. -/
theorem pn_selfptr : ∀ (d j e : Nat) (b : Bool), 10 - j ≤ d →
    parseNameAux [192, 0] 0 [] e b j = none := by
  intro d
  induction d with
  | zero =>
    intro j e b hd
    exact pn_ptr_over _ _ _ _ _ _ (by decide) (by decide) (by decide) (by decide) (by omega)
  | succ d ih =>
    intro j e b hd
    by_cases hj : 10 < j + 1
    · exact pn_ptr_over _ _ _ _ _ _ (by decide) (by decide) (by decide) (by decide) hj
    · rw [pn_ptr _ _ _ _ _ _ (by decide) (by decide) (by decide) (by decide) hj]
      have hz : Nat.lor (Nat.shiftLeft (Nat.land (([192, 0] : List Nat).getD 0 0) 63) 8)
          (([192, 0] : List Nat).getD 1 0) = 0 := by decide
      rw [hz]
      exact ih (j + 1) _ true (by omega)

/-! ## Claim C3 -/

/-- C3: DNS name decoding follows at most 10 compression-pointer jumps: from a
state in which 10 jumps have already been taken, any further in-bounds pointer
byte makes the decoder return Malformed (`none`); in particular a crafted
self-referential pointer chain requiring an 11th jump fails as Malformed
rather than looping or reading out of bounds (termination for every buffer
and offset is established by the well-founded definition of `parseNameAux`). -/
theorem c3_thm :
    (∀ (data : List Nat) (pos : Nat) (l : List (List Nat)) (e : Nat) (b : Bool),
        ¬ data.length ≤ pos → Nat.land (data.getD pos 0) 192 = 192 →
        ¬ data.length ≤ pos + 1 → parseNameAux data pos l e b 10 = none)
    ∧ parseName [192, 0] 0 = none := by
  constructor
  · intro data pos l e b h hp h1
    have h0 : ¬ data.getD pos 0 = 0 := by
      intro he
      rw [he] at hp
      exact absurd hp (by decide)
    exact pn_ptr_over data pos l e b 10 h h0 hp h1 (by omega)
  · exact pn_selfptr 10 0 0 false (by omega)

/-- C3 witness: the jump-budget bound applied to the concrete self-pointer
buffer in the exhausted state. -/
theorem c3_w : parseNameAux [192, 0] 0 [] 0 true 10 = none :=
  c3_thm.1 [192, 0] 0 [] 0 true (by decide) (by decide) (by decide)

/-! ## Claim C4 -/

/-- C4: `parse_dns` fails with Malformed (`none`, surfaced as -2) on every
buffer shorter than 12 bytes, and on every buffer in which any of the four
declared 16-bit section counts exceeds 256, producing no structured result. -/
theorem c4_thm (data : List Nat) :
    (data.length < 12 → parseDns data = none)
    ∧ ((256 < be16 (data.getD 4 0) (data.getD 5 0) ∨ 256 < be16 (data.getD 6 0) (data.getD 7 0)
        ∨ 256 < be16 (data.getD 8 0) (data.getD 9 0)
        ∨ 256 < be16 (data.getD 10 0) (data.getD 11 0)) → parseDns data = none) := by
  constructor
  · intro h
    unfold parseDns
    rw [if_pos h]
  · intro h
    unfold parseDns
    by_cases hl : data.length < 12
    · rw [if_pos hl]
    · rw [if_neg hl, if_pos h]

/-- C4 witness: a 1-byte buffer is rejected, and a 12-byte buffer declaring a
question count of 257 is rejected despite a well-formed remainder. -/
theorem c4_w : parseDns [0] = none ∧ parseDns [0, 0, 0, 0, 1, 1, 0, 0, 0, 0, 0, 0] = none :=
  ⟨(c4_thm [0]).1 (by decide), (c4_thm [0, 0, 0, 0, 1, 1, 0, 0, 0, 0, 0, 0]).2 (by decide)⟩

/-! ## Claim C7 -/

/-- C7 counterexample: the header lexer's status grammar is any three digits,
so status 099 reaches the body-presence rule from a successful parse
("HTTP/1.1 099 X"); 99 is not 1xx, not 204 and not 304, yet has_body
evaluates to false, refuting the claim that every status other than 1xx, 204
and 304 yields has_body = true. -/
theorem c7_cex :
    hasBodyOf 99 = false ∧ ¬ (100 ≤ (99 : Nat) ∧ (99 : Nat) ≤ 199)
      ∧ (99 : Nat) ≠ 204 ∧ (99 : Nat) ≠ 304 := by
  decide

/-- C7 as amended: for every status code whatsoever, `has_body` is false
exactly when the status is below 200 (all 1xx codes, and any smaller
three-digit code such as 099 that the lexer admits) or equals 204 or 304, and
true otherwise; by definition `hasBodyOf` consults only the status code, so
any declared Content-Length is irrelevant. -/
theorem c7_thm (status : Nat) :
    hasBodyOf status = false ↔ (status < 200 ∨ status = 204 ∨ status = 304) := by
  unfold hasBodyOf
  simp only [Bool.and_eq_false_iff, decide_eq_false_iff_not, not_le, bne_eq_false_iff_eq]
  omega

/-! ## Claim C8 -/

/-- C8: `build_query_bytes` produces exactly the 12-byte header (big-endian
id; flags 0x0100 when recursion is desired, else 0; counts 1/0/0/0) followed
by the encoded question name, the big-endian record type, and class IN(1) —
nothing else. -/
theorem c8_thm (domain : List Nat) (rtype id : Nat) (rd : Bool) :
    buildQueryBytes domain rtype id rd
      = [id / 256 % 256, id % 256, if rd then 1 else 0, 0, 0, 1, 0, 0, 0, 0, 0, 0]
        ++ serializeName domain ++ [rtype / 256 % 256, rtype % 256, 0, 1] := by
  cases rd <;> simp [buildQueryBytes, be16enc]

/-! ## Claim C9 -/

/-- C9: RDATA formatting is total by construction (`formatRdata` is a Lean
function, defined for every type, rdata, message and offset); for an unknown
record type, or a known type whose rdata has the wrong byte length (A ≠ 4
bytes, AAAA ≠ 16, MX < 3, SRV < 7, SVCB/HTTPS < 3), the result is the
lowercase hex dump of the raw rdata. -/
theorem c9_thm (rtype : Nat) (rd msg : List Nat) (start : Nat)
    (h : hexFallback rtype rd.length = true) :
    formatRdata rtype rd msg start = hexBytes rd := by
  have h1 : ¬ (rtype = 1 ∧ rd.length = 4) := by
    rintro ⟨ha, hb⟩
    rw [ha, hb] at h
    exact absurd h (by decide)
  have h2 : ¬ (rtype = 28 ∧ rd.length = 16) := by
    rintro ⟨ha, hb⟩
    rw [ha, hb] at h
    exact absurd h (by decide)
  have h3 : ¬ (rtype = 2 ∨ rtype = 5 ∨ rtype = 12) := by
    rintro (ha | ha | ha) <;> rw [ha] at h <;>
      simp [hexFallback] at h
  have h4 : ¬ (rtype = 15 ∧ 3 ≤ rd.length) := by
    rintro ⟨ha, hb⟩
    rw [ha] at h
    simp [hexFallback, hb] at h
  have h5 : ¬ rtype = 16 := by
    intro ha
    rw [ha] at h
    simp [hexFallback] at h
  have h6 : ¬ (rtype = 33 ∧ 7 ≤ rd.length) := by
    rintro ⟨ha, hb⟩
    rw [ha] at h
    simp [hexFallback, hb] at h
  have h7 : ¬ ((rtype = 64 ∨ rtype = 65) ∧ 3 ≤ rd.length) := by
    rintro ⟨ha | ha, hb⟩ <;> rw [ha] at h <;>
      simp [hexFallback, hb] at h
  unfold formatRdata
  rw [if_neg h1, if_neg h2, if_neg h3, if_neg h4, if_neg h5, if_neg h6, if_neg h7]

/-- C9 witness: type A with a 3-byte rdata renders as its hex dump. -/
theorem c9_w : formatRdata 1 [1, 2, 3] [] 0 = hexBytes [1, 2, 3] :=
  c9_thm 1 [1, 2, 3] [] 0 (by decide)

/-! ## Claim C10 -/

/-- C10: for MX with at least 3 rdata bytes, SRV with at least 7, and
SVCB/HTTPS with at least 3, a failure to decode the embedded target name from
the enclosing message still yields a display string: the numeric fields
followed by an empty target name (trailing space), not a hex dump and not an
error. -/
theorem c10_thm (rd msg : List Nat) (start : Nat) :
    (3 ≤ rd.length → parseName msg (start + 2) = none →
      formatRdata 15 rd msg start = decBytes (be16 (rd.getD 0 0) (rd.getD 1 0)) ++ [32])
    ∧ (7 ≤ rd.length → parseName msg (start + 6) = none →
      formatRdata 33 rd msg start
        = decBytes (be16 (rd.getD 0 0) (rd.getD 1 0))
          ++ 32 :: decBytes (be16 (rd.getD 2 0) (rd.getD 3 0))
          ++ 32 :: decBytes (be16 (rd.getD 4 0) (rd.getD 5 0)) ++ [32])
    ∧ (3 ≤ rd.length → parseName msg (start + 2) = none →
      formatRdata 64 rd msg start
        = if be16 (rd.getD 0 0) (rd.getD 1 0) = 0 then aliasModeBytes
          else decBytes (be16 (rd.getD 0 0) (rd.getD 1 0)) ++ [32])
    ∧ (3 ≤ rd.length → parseName msg (start + 2) = none →
      formatRdata 65 rd msg start
        = if be16 (rd.getD 0 0) (rd.getD 1 0) = 0 then aliasModeBytes
          else decBytes (be16 (rd.getD 0 0) (rd.getD 1 0)) ++ [32]) := by
  refine ⟨fun hlen hpn => ?_, fun hlen hpn => ?_, fun hlen hpn => ?_, fun hlen hpn => ?_⟩
  · unfold formatRdata
    rw [if_neg (by simp), if_neg (by simp), if_neg (by simp), if_pos ⟨rfl, hlen⟩, hpn]
    simp
  · unfold formatRdata
    rw [if_neg (by simp), if_neg (by simp), if_neg (by simp), if_neg (by simp),
      if_neg (by simp), if_pos ⟨rfl, hlen⟩, hpn]
    simp
  · unfold formatRdata
    rw [if_neg (by simp), if_neg (by simp), if_neg (by simp), if_neg (by simp),
      if_neg (by simp), if_neg (by simp), if_pos ⟨Or.inl rfl, hlen⟩, hpn]
    split <;> simp
  · unfold formatRdata
    rw [if_neg (by simp), if_neg (by simp), if_neg (by simp), if_neg (by simp),
      if_neg (by simp), if_neg (by simp), if_pos ⟨Or.inr rfl, hlen⟩, hpn]
    split <;> simp

/-- C10 witness: an MX record with rdata [0, 5, 0] over an empty message (so
the target-name decode fails) renders as "5 ". -/
theorem c10_w : formatRdata 15 [0, 5, 0] [] 0 = [53, 32] := by
  rw [(c10_thm [0, 5, 0] [] 0).1 (by decide) (pn_oob [] 2 [] 0 false 0 (by decide))]
  decide

/-! ## Content-Length collection lemmas -/

/-- Values already accumulated by the Content-Length scan survive into any
successful result. -/
theorem collectCL_acc_sub : ∀ (hs : List (List Nat × List Nat)) (acc vs : List Int),
    collectCL hs acc = some vs → ∀ x ∈ acc, x ∈ vs := by
  intro hs
  induction hs with
  | nil =>
    intro acc vs h x hx
    unfold collectCL at h
    simp only [Option.some.injEq] at h
    rwa [← h]
  | cons hd t ih =>
    intro acc vs h x hx
    unfold collectCL at h
    cases hv : clHeaderVal hd with
    | none =>
      rw [hv] at h
      simp only [] at h
      exact ih _ _ h x hx
    | some v =>
      rw [hv] at h
      simp only [] at h
      by_cases hgt : 104857600 < v
      · rw [if_pos hgt] at h
        cases h
      · rw [if_neg hgt] at h
        refine ih _ _ h x ?_
        by_cases hc : acc.contains v
        · rwa [if_pos hc]
        · rw [if_neg hc]
          exact List.mem_append_left _ hx

/-- Every header whose name is content-length and whose value parses lands its
value in the successful scan result. -/
theorem collectCL_mem_val : ∀ (hs : List (List Nat × List Nat)) (acc vs : List Int),
    collectCL hs acc = some vs → ∀ p ∈ hs, ∀ v : Int, clHeaderVal p = some v → v ∈ vs := by
  intro hs
  induction hs with
  | nil =>
    intro acc vs _ p hp
    exact absurd hp (List.not_mem_nil p)
  | cons hd t ih =>
    intro acc vs h p hp v hv
    unfold collectCL at h
    rcases List.mem_cons.mp hp with rfl | hp'
    · rw [hv] at h
      simp only [] at h
      by_cases hgt : 104857600 < v
      · rw [if_pos hgt] at h
        cases h
      · rw [if_neg hgt] at h
        refine collectCL_acc_sub t _ _ h v ?_
        by_cases hc : acc.contains v
        · rw [if_pos hc]
          simpa using hc
        · rw [if_neg hc]
          exact List.mem_append_right _ (by simp)
    · cases hv2 : clHeaderVal hd with
      | none =>
        rw [hv2] at h
        simp only [] at h
        exact ih _ _ h p hp' v hv
      | some v2 =>
        rw [hv2] at h
        simp only [] at h
        by_cases hgt : 104857600 < v2
        · rw [if_pos hgt] at h
          cases h
        · rw [if_neg hgt] at h
          exact ih _ _ h p hp' v hv

/-- A list containing two distinct elements has length above one. -/
theorem two_mem_one_lt_length {v1 v2 : Int} {vs : List Int} (h1 : v1 ∈ vs) (h2 : v2 ∈ vs)
    (hne : v1 ≠ v2) : 1 < vs.length := by
  match vs with
  | [] => cases h1
  | [a] =>
    simp only [List.mem_singleton] at h1 h2
    exact absurd (h1.trans h2.symm) hne
  | a :: b :: t => simp

/-- Every value in a successful Content-Length scan started from an empty
accumulator is at most 100 MiB (the oversize guard fails the scan first). -/
theorem collectCL_le : ∀ (hs : List (List Nat × List Nat)) (acc vs : List Int),
    collectCL hs acc = some vs → (∀ v ∈ acc, v ≤ 104857600) → ∀ v ∈ vs, v ≤ 104857600 := by
  intro hs
  induction hs with
  | nil =>
    intro acc vs h hacc
    unfold collectCL at h
    simp only [Option.some.injEq] at h
    rwa [← h]
  | cons hd t ih =>
    intro acc vs h hacc
    unfold collectCL at h
    cases hv : clHeaderVal hd with
    | none =>
      rw [hv] at h
      simp only [] at h
      exact ih _ _ h hacc
    | some v0 =>
      rw [hv] at h
      simp only [] at h
      by_cases hgt : 104857600 < v0
      · rw [if_pos hgt] at h
        cases h
      · rw [if_neg hgt] at h
        refine ih _ _ h ?_
        intro v hm
        by_cases hc : acc.contains v0
        · rw [if_pos hc] at hm
          exact hacc v hm
        · rw [if_neg hc] at hm
          rcases List.mem_append.mp hm with hm1 | hm2
          · exact hacc v hm1
          · simp only [List.mem_singleton] at hm2
            omega

/-! ## Claim C1 -/

/-- C1 counterexample: a header block with Transfer-Encoding chunked and two
differing Content-Length values (10 and 20) is accepted with return code 0 and
framing (content_length -1, chunked), not rejected with -2 as the claim
states: the chunked check short-circuits before the conflict check runs. -/
theorem c1_cex :
    requestParseCode
        [(teNameBytes, chunkedBytes), (clNameBytes, [49, 48]), (clNameBytes, [50, 48])] = 0
    ∧ requestFraming
        [(teNameBytes, chunkedBytes), (clNameBytes, [49, 48]), (clNameBytes, [50, 48])]
        = some (-1, true) := by
  constructor
  · decide
  · decide

/-- C1 as amended: the distinct-Content-Length conflict check runs only when
no chunked Transfer-Encoding token is present.  Without chunked, any two
content-length headers carrying differing parsed values force return code -2;
with chunked, the Content-Length headers are never examined and the message is
accepted with content_length -1 and the chunked flag set. -/
theorem c1_thm (hs : List (List Nat × List Nat)) :
    (∀ p1 ∈ hs, ∀ p2 ∈ hs, ∀ v1 v2 : Int, isChunked hs = false →
      clHeaderVal p1 = some v1 → clHeaderVal p2 = some v2 → v1 ≠ v2 →
      requestParseCode hs = -2)
    ∧ (isChunked hs = true → requestFraming hs = some (-1, true)) := by
  constructor
  · intro p1 hp1 p2 hp2 v1 v2 hch hv1 hv2 hne
    unfold requestParseCode requestFraming
    rw [hch]
    cases hcol : collectCL hs [] with
    | none => simp [parseContentLength, hcol]
    | some vs =>
      have hm1 := collectCL_mem_val hs [] vs hcol p1 hp1 v1 hv1
      have hm2 := collectCL_mem_val hs [] vs hcol p2 hp2 v2 hv2
      have hlen := two_mem_one_lt_length hm1 hm2 hne
      simp [parseContentLength, hcol, hlen]
  · intro h
    unfold requestFraming
    rw [h]
    simp

/-- C1 witness for the amended claim: two differing Content-Length headers
("10" and "20") without chunked yield return code -2. -/
theorem c1_w : requestParseCode [(clNameBytes, [49, 48]), (clNameBytes, [50, 48])] = -2 :=
  (c1_thm [(clNameBytes, [49, 48]), (clNameBytes, [50, 48])]).1
    (clNameBytes, [49, 48]) (by decide) (clNameBytes, [50, 48]) (by decide) 10 20
    (by decide) (by decide) (by decide) (by decide)

/-! ## Claim C5 -/

/-- C5 counterexample: a header "Content-Length: -5" parses successfully
(return code 0) with content_length -5, which is negative and distinct from
the absent sentinel -1, refuting the claim that successful parses always carry
-1 or a non-negative value: the value is parsed as a signed i64, not as a
non-negative integer. -/
theorem c5_cex :
    requestFraming [(clNameBytes, [45, 53])] = some (-5, false)
    ∧ requestParseCode [(clNameBytes, [45, 53])] = 0 := by
  constructor
  · decide
  · decide

/-- C5 as amended: on success the content_length field is -1 when chunked (and
when no Content-Length header survives), and otherwise the surviving header
value parsed as a signed 64-bit integer: it never exceeds 100 MiB, but it may
be negative. -/
theorem c5_thm (hs : List (List Nat × List Nat)) (cl : Int) (ch : Bool)
    (h : requestFraming hs = some (cl, ch)) :
    cl ≤ 104857600 ∧ (ch = true → cl = -1) := by
  unfold requestFraming at h
  by_cases hc : isChunked hs
  · rw [hc] at h
    simp only [if_true, Option.some.injEq, Prod.mk.injEq] at h
    obtain ⟨rfl, rfl⟩ := h
    exact ⟨by omega, fun _ => rfl⟩
  · rw [if_neg (by simpa using hc)] at h
    cases hp : parseContentLength hs with
    | none =>
      rw [hp] at h
      cases h
    | some o =>
      rw [hp] at h
      cases o with
      | none =>
        simp only [Option.some.injEq, Prod.mk.injEq] at h
        obtain ⟨rfl, rfl⟩ := h
        exact ⟨by omega, by simp⟩
      | some v =>
        simp only [Option.some.injEq, Prod.mk.injEq] at h
        obtain ⟨rfl, rfl⟩ := h
        refine ⟨?_, by simp⟩
        unfold parseContentLength at hp
        cases hcol : collectCL hs [] with
        | none =>
          rw [hcol] at hp
          simp only [] at hp
          cases hp
        | some vs =>
          rw [hcol] at hp
          simp only [] at hp
          by_cases hlen : 1 < vs.length
          · rw [if_pos hlen] at hp
            cases hp
          · rw [if_neg hlen] at hp
            simp only [Option.some.injEq] at hp
            have hv : v ∈ vs := by
              cases vs with
              | nil => simp at hp
              | cons a t =>
                simp only [List.head?_cons, Option.some.injEq] at hp
                rw [hp]
                exact List.mem_cons_self v t
            exact collectCL_le hs [] vs hcol (by simp) v hv

/-- C5 witness for the amended claim: a single "Content-Length: 10" header
frames successfully and satisfies the amended bounds. -/
theorem c5_w : (10 : Int) ≤ 104857600 ∧ (false = true → (10 : Int) = -1) :=
  c5_thm [(clNameBytes, [49, 48])] 10 false (by decide)

/-! ## Claim C2 -/

/-- A resource record cannot be read at an offset at or past the buffer end. -/
theorem parseRr_oob (data : List Nat) (off : Nat) (h : data.length ≤ off) :
    parseRr data off = none := by
  unfold parseRr
  rw [show parseName data off = none from pn_oob data off [] 0 false 0 h]

/-- C2 counterexample: a 12-byte DNS message with a well-formed header, an
empty question section and a declared answer count of 1 (but no answer bytes)
fails the whole parse with `none`, instead of succeeding with the answers
section truncated as the claim states: a mid-section failure in the answers
section propagates (Rust `?`) and fails the message. -/
theorem c2_cex : parseDns [0, 0, 0, 0, 0, 0, 0, 1, 0, 0, 0, 0] = none := by
  have hr : parseRr [0, 0, 0, 0, 0, 0, 0, 1, 0, 0, 0, 0] 12 = none :=
    parseRr_oob _ _ (by decide)
  simp [parseDns, parseQuestions, parseAnswers, be16, hr]

/-- C2 as amended: the truncating reader (used for authority and additional
only) never fails and returns at most the declared number of records; a DNS
message whose authority (respectively additional) section declares one record
that cannot be decoded parses successfully with that section truncated to
empty, while the same failure in the answers section fails the whole parse
(shown by the C2 counterexample). -/
theorem c2_thm :
    (∀ (data : List Nat) (off count : Nat),
      ((parseRrSection data off count).1).length ≤ count)
    ∧ parseDns [0, 0, 0, 0, 0, 0, 0, 0, 0, 1, 0, 0]
        = some ⟨0, false, 0, false, false, false, false, 0, [], [], [], []⟩
    ∧ parseDns [0, 0, 0, 0, 0, 0, 0, 0, 0, 0, 0, 1]
        = some ⟨0, false, 0, false, false, false, false, 0, [], [], [], []⟩ := by
  refine ⟨?_, ?_, ?_⟩
  · intro data off count
    induction count generalizing off with
    | zero => simp [parseRrSection]
    | succ n ih =>
      unfold parseRrSection
      cases h : parseRr data off with
      | none => simp
      | some p =>
        obtain ⟨rr, off1⟩ := p
        simp only [List.length_cons]
        have := ih off1
        omega
  · have hr : parseRr [0, 0, 0, 0, 0, 0, 0, 0, 0, 1, 0, 0] 12 = none :=
      parseRr_oob _ _ (by decide)
    simp [parseDns, parseQuestions, parseAnswers, parseRrSection, be16, hr]
    decide
  · have hr : parseRr [0, 0, 0, 0, 0, 0, 0, 0, 0, 0, 0, 1] 12 = none :=
      parseRr_oob _ _ (by decide)
    simp [parseDns, parseQuestions, parseAnswers, parseRrSection, be16, hr]
    decide

/-! ## Round-trip machinery for claim C6 -/

/-- Indexing past a prefix lands in the suffix. -/
theorem getD_append_idx (l1 l2 : List Nat) (k : Nat) :
    (l1 ++ l2).getD (l1.length + k) 0 = l2.getD k 0 := by
  induction l1 with
  | nil => simp
  | cons a t ih =>
    have hidx : t.length + 1 + k = (t.length + k) + 1 := by omega
    simp only [List.cons_append, List.length_cons]
    rw [hidx, List.getD_cons_succ]
    exact ih

/-- Splitting on '.' always yields at least one (possibly empty) component. -/
theorem splitOnDot_ne_nil (s : List Nat) : splitOnDot s ≠ [] := by
  cases s with
  | nil => simp [splitOnDot]
  | cons b bs =>
    unfold splitOnDot
    by_cases hb : b = 46
    · simp [hb]
    · rw [if_neg hb]
      cases h : splitOnDot bs <;> simp

/-- Joining the '.'-split of a byte string with '.' restores the string. -/
theorem joinSep_splitOnDot (s : List Nat) : joinSep [46] (splitOnDot s) = s := by
  induction s with
  | nil => rfl
  | cons b bs ih =>
    unfold splitOnDot
    by_cases hb : b = 46
    · rw [if_pos hb]
      subst hb
      cases h : splitOnDot bs with
      | nil => exact absurd h (splitOnDot_ne_nil bs)
      | cons h1 t1 =>
        rw [h] at ih
        show [] ++ [46] ++ joinSep [46] (h1 :: t1) = 46 :: bs
        rw [ih]
        rfl
    · rw [if_neg hb]
      cases h : splitOnDot bs with
      | nil => exact absurd h (splitOnDot_ne_nil bs)
      | cons h1 t1 =>
        rw [h] at ih
        cases t1 with
        | nil =>
          show b :: h1 = b :: bs
          simp only [joinSep] at ih
          rw [ih]
        | cons h2 t2 =>
          show (b :: h1) ++ [46] ++ joinSep [46] (h2 :: t2) = b :: bs
          have ih2 : h1 ++ [46] ++ joinSep [46] (h2 :: t2) = bs := by
            simpa [joinSep] using ih
          rw [← ih2]
          simp

/-- Length bytes of encoded labels are below 64, so they never look like
compression pointers. -/
theorem land_lt64 : ∀ n < 64, Nat.land n 192 = 0 := by decide

/-- Filtering out empty components is the identity when none are empty. -/
theorem filter_ne_nil (ls : List (List Nat)) (h : ∀ l ∈ ls, l ≠ []) :
    ls.filter (fun l => !l.isEmpty) = ls :=
  List.filter_eq_self.mpr (fun a ha => by simpa using h a ha)

/-- For labels within the 63-byte cap, the encoder emits the exact length byte
and the untruncated label. -/
theorem flatMap_encLabel (ls : List (List Nat)) (h : ∀ l ∈ ls, l.length ≤ 63) :
    ls.flatMap encLabel = ls.flatMap (fun l => l.length :: l) := by
  induction ls with
  | nil => rfl
  | cons a t ih =>
    simp only [List.flatMap_cons]
    rw [ih (fun l hl => h l (List.mem_cons_of_mem _ hl))]
    have ha := h a (List.mem_cons_self a t)
    unfold encLabel
    rw [Nat.min_eq_left ha, List.take_of_length_le ha]

/-- Decoding a buffer consisting of a prefix, well-formed encoded labels and a
terminating zero byte, starting right after the prefix, yields exactly those
labels appended to the accumulator and stops right after the zero byte. -/
theorem parseAux_enc :
    ∀ (ls : List (List Nat)),
      (∀ l ∈ ls, l ≠ [] ∧ l.length ≤ 63 ∧ validUtf8 l = true) →
      ∀ (pre : List Nat) (acc : List (List Nat)) (e j : Nat),
        parseNameAux (pre ++ ls.flatMap (fun l => l.length :: l) ++ [0]) pre.length acc e false j
          = some (renderLabels (acc.reverse ++ ls),
              pre.length + (ls.flatMap (fun l => l.length :: l)).length + 1) := by
  intro ls
  induction ls with
  | nil =>
    intro _ pre acc e j
    simp only [List.flatMap_nil, List.append_nil, List.length_nil]
    rw [pn_zero _ _ _ _ _ _ (by simp) (by simpa using getD_append_idx pre [0] 0)]
    simp
  | cons l rest ih =>
    intro hl pre acc e j
    obtain ⟨hne, h63, hu⟩ := hl l (List.mem_cons_self l rest)
    have hrest : ∀ x ∈ rest, x ≠ [] ∧ x.length ≤ 63 ∧ validUtf8 x = true :=
      fun x hx => hl x (List.mem_cons_of_mem _ hx)
    have hD : pre ++ (l :: rest).flatMap (fun l => l.length :: l) ++ [0]
        = (pre ++ l.length :: l) ++ rest.flatMap (fun l => l.length :: l) ++ [0] := by
      simp [List.flatMap_cons]
    rw [hD]
    have hlenD : ((pre ++ l.length :: l) ++ rest.flatMap (fun l => l.length :: l) ++ [0]).length
        = pre.length + 1 + l.length + (rest.flatMap (fun l => l.length :: l)).length + 1 := by
      simp [List.length_append, List.length_cons]
      omega
    have hg : ((pre ++ l.length :: l) ++ rest.flatMap (fun l => l.length :: l)
          ++ [0]).getD pre.length 0 = l.length := by
      have h1 : (pre ++ l.length :: l) ++ rest.flatMap (fun l => l.length :: l) ++ [0]
          = pre ++ (l.length :: (l ++ (rest.flatMap (fun l => l.length :: l) ++ [0]))) := by
        simp
      rw [h1]
      simpa using
        getD_append_idx pre (l.length :: (l ++ (rest.flatMap (fun l => l.length :: l) ++ [0]))) 0
    have hslice : sliceB ((pre ++ l.length :: l) ++ rest.flatMap (fun l => l.length :: l) ++ [0])
        (pre.length + 1) l.length = l := by
      unfold sliceB
      have h1 : (pre ++ l.length :: l) ++ rest.flatMap (fun l => l.length :: l) ++ [0]
          = (pre ++ [l.length]) ++ (l ++ (rest.flatMap (fun l => l.length :: l) ++ [0])) := by
        simp
      have h2 : pre.length + 1 = (pre ++ [l.length]).length := by simp
      rw [h1, h2, List.drop_left]
      exact List.take_left l (rest.flatMap (fun l => l.length :: l) ++ [0])
    have hlab : l.length ≠ 0 := fun h0 => hne (List.length_eq_zero.mp h0)
    rw [pn_label _ _ _ _ _ _ (by rw [hlenD]; omega) (by rw [hg]; exact hlab)
      (by rw [hg, land_lt64 l.length (by omega)]; decide) (by rw [hg]; omega)
      (by rw [hg, hlenD]; omega) (by rw [hg, hslice]; exact hu)]
    rw [hg, hslice]
    have hp2 : (pre ++ l.length :: l).length = pre.length + 1 + l.length := by
      simp
      omega
    rw [← hp2]
    rw [ih hrest (pre ++ l.length :: l) (l :: acc) e j]
    simp only [List.reverse_cons, List.append_assoc, List.singleton_append,
      List.length_append, List.length_cons, List.flatMap_cons, Option.some.injEq,
      Prod.mk.injEq]
    exact ⟨trivial, by omega⟩

/-! ## Claim C6 -/

/-- C6: for every non-empty domain name whose dot-separated labels are all
non-empty, at most 63 bytes long and valid UTF-8, encoding with
`serialize_name` and decoding the result at offset 0 with `parse_name` yields
the original dotted name together with an end offset equal to the encoded
length. -/
theorem c6_thm (s : List Nat) (_hne : s ≠ [])
    (hl : ∀ l ∈ splitOnDot s, l ≠ [] ∧ l.length ≤ 63 ∧ validUtf8 l = true) :
    parseName (serializeName s) 0 = some (s, (serializeName s).length) := by
  have hfil : (splitOnDot s).filter (fun l => !l.isEmpty) = splitOnDot s :=
    filter_ne_nil _ (fun l hm => (hl l hm).1)
  have henc : (splitOnDot s).flatMap encLabel
      = (splitOnDot s).flatMap (fun l => l.length :: l) :=
    flatMap_encLabel _ (fun l hm => (hl l hm).2.1)
  have hmain := parseAux_enc (splitOnDot s) hl [] [] 0 0
  simp only [List.nil_append, List.length_nil, List.reverse_nil, Nat.zero_add] at hmain
  unfold parseName serializeName
  rw [hfil, henc, hmain]
  have hrl : renderLabels (splitOnDot s) = s := by
    unfold renderLabels
    rw [if_neg (by simpa using splitOnDot_ne_nil s), joinSep_splitOnDot]
  rw [hrl]
  simp

/-- C6 witness: the name "ab.cd" (bytes [97, 98, 46, 99, 100]) round-trips,
with end offset 7 = length of its encoding [2, 97, 98, 2, 99, 100, 0]. -/
theorem c6_w : parseName (serializeName [97, 98, 46, 99, 100]) 0
    = some ([97, 98, 46, 99, 100], 7) :=
  c6_thm [97, 98, 46, 99, 100] (by decide) (by decide)

end Iris
